import Mathlib

/-!
Verification of the auto_research core against its specification.

The repository ships the `auto_research` package behind example scripts and
documentation; the package modules themselves (`auto_research.search.core`,
`auto_research.survey.core`, `auto_research.utils.files`,
`auto_research.reimplementation.code_availability_check`) are not present in
the source tree, only their callers and docs.  Where a definition embeds one
of those missing modules it is modelled from the specification (and, where
available, from the contract visible in the calling code) and its doc comment
says so.
-/

namespace AutoResearch

/-- One discovered paper, per the spec's data model: `title` is the dedup and
display key, `citation_count` is a non-negative integer (unknown treated
as 0). -/
structure PaperRecord where
  title : String
  authors : List String
  year : Int
  citation_count : Nat
  source_url : String
  deriving Repr, DecidableEq, Inhabited

/-- Case-folding and whitespace-collapsing worker over the title's
characters.  `started` records whether a word has been emitted yet and
`pending` whether whitespace has been read since the last word, so runs of
whitespace become a single separating space and leading/trailing whitespace
disappears. -/
def normAux (started pending : Bool) : List Char → List Char
  | [] => []
  | c :: cs =>
    if c.isWhitespace then normAux started true cs
    else if started && pending then ' ' :: c.toLower :: normAux true false cs
    else c.toLower :: normAux true false cs

/-- Modelled from the spec: title normalization for the dedup key — the title
case-folded and whitespace-collapsed. -/
def normalizeTitle (t : String) : String :=
  String.mk (normAux false false t.toList)

/-- The dedup key of a record: its normalized title. -/
def normKey (r : PaperRecord) : String :=
  normalizeTitle r.title

/-- Modelled from the spec: the Deduplicator's worker over one concatenated
input sequence, threading the set of dedup keys already seen.  A record whose
normalized title was seen before is dropped silently; otherwise it is kept
and its key recorded. -/
def dedupAux (seen : List String) : List PaperRecord → List PaperRecord
  | [] => []
  | p :: ps =>
    if normKey p ∈ seen then dedupAux seen ps
    else p :: dedupAux (normKey p :: seen) ps

/-- Modelled from the spec: the Deduplicator (module absent from the source
tree).  Input sequences per query are concatenated in processing order and
deduplicated by normalized title, keeping the first-seen occurrence. -/
def dedup (s : List PaperRecord) : List PaperRecord :=
  dedupAux [] s

/-- The set of seen keys after `dedupAux seen s` has processed `s`. -/
def seenAfter (seen : List String) : List PaperRecord → List String
  | [] => seen
  | p :: ps =>
    if normKey p ∈ seen then seenAfter seen ps
    else seenAfter (normKey p :: seen) ps

/-- The three-valued verdict of the code-availability check, per the spec:
never coerces an unreachable link into "no link found". -/
inductive Verdict
  | noLinkFound
  | linkFoundReachable
  | linkFoundUnreachable
  deriving Repr, DecidableEq, Inhabited

/-- Modelled from the spec: the closed set of summarization modes, a closed
tagged variant selecting a prompt template. -/
inductive Mode
  | summarize
  | explain
  | codeCheck
  | customPrompt
  deriving Repr, DecidableEq, Inhabited

/-- The mode strings of the closed set accepted at construction. -/
def modeStrings : List String :=
  ["summarize", "explain", "code-check", "custom-prompt"]

/-- Modelled from the spec: construction accepts exactly the closed set of
mode names and maps each to its variant; anything else is rejected. -/
def parseMode (s : String) : Option Mode :=
  if s = "summarize" then some Mode.summarize
  else if s = "explain" then some Mode.explain
  else if s = "code-check" then some Mode.codeCheck
  else if s = "custom-prompt" then some Mode.customPrompt
  else none

/-- The section blocks produced by the external SectionExtractor capability:
any section may be the empty string, never missing. -/
structure Sections where
  abstract : String
  introduction : String
  discussion : String
  conclusion : String
  deriving Repr, DecidableEq, Inhabited

/-- One reply of the external LLM capability: the text plus the reported
per-call cost (a non-negative real, modelled as a rational; the core never
interprets it beyond summation). -/
structure LLMResponse where
  text : String
  cost : ℚ
  deriving Repr, DecidableEq, Inhabited

/-- Modelled from the spec: the per-instance SummarySession state of
`auto_research.survey.core.AutoSurvey` (module absent from the source
tree). -/
structure AutoSurvey where
  paper_path : String
  mode : Mode
  cost_accumulation : ℚ
  conversation_history : List (String × String)
  cached_sections : Option Sections
  cached_summary : Option String
  deriving Repr, DecidableEq, Inhabited

/-- A freshly constructed, uninitialized session: no LLM call yet, zero
accumulated cost, empty history, nothing cached. -/
def initSession (paper_path : String) (mode : Mode) : AutoSurvey :=
  { paper_path := paper_path
    mode := mode
    cost_accumulation := 0
    conversation_history := []
    cached_sections := none
    cached_summary := none }

/-- Modelled from the spec: the fixed prompt template per mode, applied to
the cached extracted sections. -/
def promptFor (m : Mode) (s : Sections) : String :=
  let body := s.abstract ++ " " ++ s.introduction ++ " " ++ s.discussion ++ " " ++ s.conclusion
  match m with
  | Mode.summarize => "Summarize the following paper sections: " ++ body
  | Mode.explain => "Explain the following paper sections: " ++ body
  | Mode.codeCheck => "Check the code availability in the following paper sections: " ++ body
  | Mode.customPrompt => body

/-- The value returned by one `run()` call: the `(text, cost_delta)` pair,
the optional validator verdict returned alongside the raw text, and the
updated session state. -/
structure RunResult where
  output : String × ℚ
  verdict : Option Verdict
  session : AutoSurvey
  deriving Repr, DecidableEq

/-- Modelled from the spec: one `run()` call of the summarization session.
On the first call the extracted sections are cached for the life of the
session; the prompt comes from the mode's template or the caller-supplied
override; the exchange is appended to the conversation history; the call's
reported cost is added to `cost_accumulation`; when a validator is supplied
its verdict on the response is returned alongside the raw text.  The
external LLM capability's reply is the `resp` argument. -/
def AutoSurvey.run (s : AutoSurvey) (extracted : Sections)
    (promptOverride : Option String) (validator : Option (String → Verdict))
    (resp : LLMResponse) : RunResult :=
  let sections := s.cached_sections.getD extracted
  let prompt := promptOverride.getD (promptFor s.mode sections)
  { output := (resp.text, resp.cost)
    verdict := validator.map (fun v => v resp.text)
    session :=
      { s with
        cached_sections := some sections
        cached_summary := some resp.text
        conversation_history := s.conversation_history ++ [(prompt, resp.text)]
        cost_accumulation := s.cost_accumulation + resp.cost } }

/-- N sequential `run()` calls on one session, the i-th answered by the i-th
reply of the LLM capability. -/
def runAll (extracted : Sections) (s : AutoSurvey) : List LLMResponse → AutoSurvey
  | [] => s
  | r :: rs => runAll extracted (AutoSurvey.run s extracted none none r).session rs

/-- Modelled from the spec: the combined score.  The exact weighting is an
open question in the specification; implementers must choose a
monotonicity-respecting formula, and this model documents the choice
citation_count / (age + 1): non-decreasing in citations, non-increasing in
age. -/
def combinedScore (citation_count age : Nat) : ℚ :=
  (citation_count : ℚ) / ((age : ℚ) + 1)

/-- A paper's age in years relative to the current year (never negative). -/
def paperAge (r : PaperRecord) (currentYear : Int) : Nat :=
  (currentYear - r.year).toNat

/-- The combined score of a record, a pure function of its fields. -/
def scoreOf (r : PaperRecord) (currentYear : Int) : ℚ :=
  combinedScore r.citation_count (paperAge r currentYear)

/-- Modelled from the spec: `r1` is not ranked below `r2` — it either has
the strictly higher score or ties on score and is not behind on the stable
secondary key (the title). -/
def ranksNotBelow (r1 r2 : PaperRecord) (currentYear : Int) : Prop :=
  scoreOf r2 currentYear < scoreOf r1 currentYear ∨
    (scoreOf r1 currentYear = scoreOf r2 currentYear ∧ r1.title ≤ r2.title)

/-- Modelled from the spec: the ThresholdFilter — keeps the records meeting
the optional score threshold and then the prefix of at most the optional
`top_n` of them; with neither bound the ranked input passes through
unchanged. -/
def thresholdFilter (topN : Option Nat) (scoreThreshold : Option ℚ)
    (ranked : List (PaperRecord × ℚ)) : List (PaperRecord × ℚ) :=
  let passed :=
    match scoreThreshold with
    | none => ranked
    | some t => ranked.filter (fun e => t ≤ e.2)
  match topN with
  | none => passed
  | some k => passed.take k

/-- Whether a file name ends in ".pdf". -/
def isPdfName (f : String) : Bool :=
  List.isSuffixOf ".pdf".toList f.toList

/-- Modelled from the spec and the `summarize_all_papers` caller present in
the source tree: `auto_research.utils.files.get_all_pdf_files` (module
absent from the source tree) lists the PDF files of a folder; the caller
wraps it in a try/except for `ValueError` commented "Handle the case where
no PDF files are found", so zero matching PDF files is signalled by raising
`ValueError` — modelled as `Except.error` — rather than by returning an
empty list. -/
def get_all_pdf_files (files : List String) : Except String (List String) :=
  let pdfs := files.filter isPdfName
  if pdfs.isEmpty then Except.error "No PDF files found in the specified folder."
  else Except.ok pdfs

/-- The outcome of the `summarize_all_papers` batch caller: either the
handled no-PDF case (caught, printed, normal return) or a normal run over
the found PDFs. -/
inductive BatchOutcome
  | handledNoPdfs (message : String)
  | processed (count : Nat)
  deriving Repr, DecidableEq

/-- The control flow of `main` in `summarize_all_papers` (present in the
source tree): the `ValueError` from `get_all_pdf_files` is caught and
handled by printing and returning, so the caller's process is not
aborted. -/
def summarize_all_papers_main (files : List String) : BatchOutcome :=
  match get_all_pdf_files files with
  | Except.error e => BatchOutcome.handledNoPdfs e
  | Except.ok pdfs => BatchOutcome.processed pdfs.length

/-- Modelled from the spec: AutoSearch's keyword loop — each keyword is an
independent query against the external SourceAdapter and the per-keyword
result sequences are merged through the Deduplicator; zero results across
all keywords yields the empty corpus as an ordinary value. -/
def searchRun (adapter : String → List PaperRecord) (keywords : List String) :
    List PaperRecord :=
  dedup (keywords.foldr (fun k acc => adapter k ++ acc) [])

/-- The characters of the repository-host pattern the checker scans for. -/
def repoHostChars : List Char :=
  "https://github.com/".toList

/-- Scans the response's characters for the repository-host pattern and, on
a hit, takes the URL up to the first whitespace. -/
def findRepoUrlAux : List Char → Option (List Char)
  | [] => none
  | c :: cs =>
    if List.isPrefixOf repoHostChars (c :: cs) then
      some ((c :: cs).takeWhile (fun ch => !ch.isWhitespace))
    else findRepoUrlAux cs

/-- Modelled from the spec: the URL extraction half of the
CodeAvailabilityChecker
(`auto_research.reimplementation.code_availability_check`, module absent
from the source tree): the first URL-shaped substring matching the
repository-host pattern, or none. -/
def extract_url (response : String) : Option String :=
  (findRepoUrlAux response.toList).map String.mk

/-- Modelled from the spec: `test_github_link` — the CodeAvailabilityChecker
over an LLM response string.  The network liveness check is the external
`reach` capability; the verdict distinguishes a dead claimed link from no
claimed code. -/
def test_github_link (reach : String → Bool) (response : String) : Verdict :=
  match extract_url response with
  | none => Verdict.noLinkFound
  | some u => if reach u then Verdict.linkFoundReachable else Verdict.linkFoundUnreachable

/-- Modelled from the spec: the persisted metadata store Organizer-side —
one record per paper, keyed to the paper, living outside any session
object. -/
structure SummaryStore where
  entries : List (String × String)
  deriving Repr, DecidableEq, Inhabited

/-- Appends one paper's summary to the persisted store. -/
def storeSummary (store : SummaryStore) (paper summary : String) : SummaryStore :=
  { entries := store.entries ++ [(paper, summary)] }

/-- Modelled from the spec: `print_summaries` reads the persisted store, not
any session object. -/
def print_summaries (store : SummaryStore) : List (String × String) :=
  store.entries

/-- Modelled from the spec and the `summarize_all_papers` caller: for each
PDF file a fresh session is constructed, `run()` is invoked once, the
generated summary is persisted to the store keyed to the paper, and the
session object is dropped. -/
def processAll (extracted : Sections) (respond : String → LLMResponse)
    (store : SummaryStore) : List String → SummaryStore
  | [] => store
  | f :: fs =>
    let session := initSession f Mode.summarize
    let result := AutoSurvey.run session extracted none none (respond f)
    processAll extracted respond (storeSummary store f result.output.1) fs

theorem dedupAux_key_not_seen {seen : List String} {s : List PaperRecord}
    {r : PaperRecord} (h : r ∈ dedupAux seen s) : normKey r ∉ seen := by
  induction s generalizing seen with
  | nil => simp [dedupAux] at h
  | cons p ps ih =>
    by_cases hp : normKey p ∈ seen
    · exact ih (by simpa [dedupAux, hp] using h)
    · rw [dedupAux, if_neg hp] at h
      rcases List.mem_cons.mp h with rfl | h
      · exact hp
      · have := ih h
        intro hr
        exact this (List.mem_cons_of_mem _ hr)

theorem dedupAux_pairwise (seen : List String) (s : List PaperRecord) :
    (dedupAux seen s).Pairwise (fun a b => normKey a ≠ normKey b) := by
  induction s generalizing seen with
  | nil => simp [dedupAux]
  | cons p ps ih =>
    by_cases hp : normKey p ∈ seen
    · simpa [dedupAux, hp] using ih seen
    · rw [dedupAux, if_neg hp]
      refine List.pairwise_cons.mpr ⟨?_, ih _⟩
      intro r hr
      have := dedupAux_key_not_seen hr
      intro hkey
      exact this (by simp [hkey])

theorem dedupAux_first_seen {seen : List String} {s : List PaperRecord}
    {r : PaperRecord} (h : r ∈ dedupAux seen s) :
    s.find? (fun x => normKey x == normKey r) = some r := by
  induction s generalizing seen with
  | nil => simp [dedupAux] at h
  | cons p ps ih =>
    by_cases hp : normKey p ∈ seen
    · rw [dedupAux, if_pos hp] at h
      have hr := dedupAux_key_not_seen h
      have hne : normKey p ≠ normKey r := fun hk => hr (hk ▸ hp)
      rw [List.find?_cons_of_neg _ (by simpa using hne)]
      exact ih h
    · rw [dedupAux, if_neg hp] at h
      rcases List.mem_cons.mp h with rfl | h
      · exact List.find?_cons_of_pos _ (by simp)
      · have hr := dedupAux_key_not_seen h
        have hne : normKey p ≠ normKey r := by
          intro hk
          exact hr (by simp [hk])
        rw [List.find?_cons_of_neg _ (by simpa using hne)]
        exact ih h

theorem dedupAux_sublist (seen : List String) (s : List PaperRecord) :
    (dedupAux seen s).Sublist s := by
  induction s generalizing seen with
  | nil => simp [dedupAux]
  | cons p ps ih =>
    by_cases hp : normKey p ∈ seen
    · rw [dedupAux, if_pos hp]
      exact (ih seen).cons p
    · rw [dedupAux, if_neg hp]
      exact (ih _).cons₂ p

theorem mem_seenAfter_of_mem {seen : List String} {s : List PaperRecord}
    {k : String} (h : k ∈ seen) : k ∈ seenAfter seen s := by
  induction s generalizing seen with
  | nil => simpa [seenAfter] using h
  | cons p ps ih =>
    by_cases hp : normKey p ∈ seen
    · rw [seenAfter, if_pos hp]; exact ih h
    · rw [seenAfter, if_neg hp]; exact ih (List.mem_cons_of_mem _ h)

theorem key_mem_seenAfter {seen : List String} {s : List PaperRecord}
    {p : PaperRecord} (h : p ∈ s) : normKey p ∈ seenAfter seen s := by
  induction s generalizing seen with
  | nil => simp at h
  | cons q qs ih =>
    by_cases hq : normKey q ∈ seen
    · rw [seenAfter, if_pos hq]
      rcases List.mem_cons.mp h with rfl | h
      · exact mem_seenAfter_of_mem hq
      · exact ih h
    · rw [seenAfter, if_neg hq]
      rcases List.mem_cons.mp h with rfl | h
      · exact mem_seenAfter_of_mem (by simp)
      · exact ih h

theorem dedupAux_append (seen : List String) (xs ys : List PaperRecord) :
    dedupAux seen (xs ++ ys) = dedupAux seen xs ++ dedupAux (seenAfter seen xs) ys := by
  induction xs generalizing seen with
  | nil => simp [dedupAux, seenAfter]
  | cons p ps ih =>
    by_cases hp : normKey p ∈ seen
    · rw [List.cons_append,
        show dedupAux seen (p :: (ps ++ ys)) = dedupAux seen (ps ++ ys) from by
          rw [dedupAux, if_pos hp],
        show dedupAux seen (p :: ps) = dedupAux seen ps from by
          rw [dedupAux, if_pos hp],
        show seenAfter seen (p :: ps) = seenAfter seen ps from by
          rw [seenAfter, if_pos hp],
        ih]
    · rw [List.cons_append,
        show dedupAux seen (p :: (ps ++ ys))
            = p :: dedupAux (normKey p :: seen) (ps ++ ys) from by
          rw [dedupAux, if_neg hp],
        show dedupAux seen (p :: ps) = p :: dedupAux (normKey p :: seen) ps from by
          rw [dedupAux, if_neg hp],
        show seenAfter seen (p :: ps) = seenAfter (normKey p :: seen) ps from by
          rw [seenAfter, if_neg hp],
        ih, List.cons_append]

theorem dedupAux_eq_nil_of_all_seen {seen : List String} {s : List PaperRecord}
    (h : ∀ p ∈ s, normKey p ∈ seen) : dedupAux seen s = [] := by
  induction s with
  | nil => rfl
  | cons p ps ih =>
    rw [dedupAux, if_pos (h p (by simp))]
    exact ih fun q hq => h q (List.mem_cons_of_mem _ hq)

theorem runAll_cost (extracted : Sections) (resps : List LLMResponse) :
    ∀ s : AutoSurvey,
      (runAll extracted s resps).cost_accumulation
        = s.cost_accumulation + (resps.map LLMResponse.cost).sum := by
  induction resps with
  | nil => intro s; simp [runAll]
  | cons r rs ih =>
    intro s
    rw [runAll, ih]
    simp [AutoSurvey.run, add_assoc]

/-- C1: After N completed `run()` calls on one AutoSurvey session, the
session's `cost_accumulation` is exactly the sum of the N per-call costs
reported by the LLM capability, whatever the response texts are — no call's
cost is dropped or double-counted. -/
theorem cost_accumulation_is_sum_of_call_costs (paper : String) (m : Mode)
    (extracted : Sections) (resps : List LLMResponse) :
    (runAll extracted (initSession paper m) resps).cost_accumulation
      = (resps.map LLMResponse.cost).sum := by
  rw [runAll_cost]
  simp [initSession]

/-- C2: Every `run()` call — with or without a prompt override and a
validator — returns the pair of the response text and that call's cost
delta: the returned pair is exactly `(text, cost)` of the LLM reply, and the
second component is the amount by which the session's accumulated cost
grows on this call. -/
theorem run_returns_text_and_cost_delta (s : AutoSurvey) (extracted : Sections)
    (promptOverride : Option String) (validator : Option (String → Verdict))
    (resp : LLMResponse) :
    (AutoSurvey.run s extracted promptOverride validator resp).output
        = (resp.text, resp.cost) ∧
      (AutoSurvey.run s extracted promptOverride validator resp).session.cost_accumulation
        = s.cost_accumulation
          + (AutoSurvey.run s extracted promptOverride validator resp).output.2 :=
  ⟨rfl, rfl⟩

/-- C4: The Deduplicator's output has no two records sharing a normalized
(case-folded, whitespace-collapsed) title; each kept record is the
first-seen occurrence of its normalized title in the input order; and the
output is an order-preserving subsequence of the input, so order and kept
copies are determined by the input alone. -/
theorem dedup_no_duplicate_titles_first_seen (s : List PaperRecord) :
    (dedup s).Pairwise (fun a b => normKey a ≠ normKey b) ∧
      (∀ r ∈ dedup s, s.find? (fun x => normKey x == normKey r) = some r) ∧
      (dedup s).Sublist s :=
  ⟨dedupAux_pairwise [] s, fun _ hr => dedupAux_first_seen hr, dedupAux_sublist [] s⟩

/-- C4 witness at a concrete input: two records with the same normalized
title and one distinct record; the first-seen copy is the one the find?
reports. -/
theorem dedup_no_duplicate_titles_first_seen_witness :
    ([⟨"Deep  Learning", ["x"], 2020, 10, "u1"⟩,
      ⟨"deep learning", ["y"], 2021, 5, "u2"⟩,
      ⟨"Other Paper", ["z"], 2019, 0, "u3"⟩] : List PaperRecord).find?
        (fun x => normKey x == normKey ⟨"Deep  Learning", ["x"], 2020, 10, "u1"⟩)
      = some ⟨"Deep  Learning", ["x"], 2020, 10, "u1"⟩ :=
  (dedup_no_duplicate_titles_first_seen
      [⟨"Deep  Learning", ["x"], 2020, 10, "u1"⟩,
       ⟨"deep learning", ["y"], 2021, 5, "u2"⟩,
       ⟨"Other Paper", ["z"], 2019, 0, "u3"⟩]).2.1
    ⟨"Deep  Learning", ["x"], 2020, 10, "u1"⟩ (by decide)

/-- C5: Deduplicating a sequence concatenated with itself gives exactly the
result of deduplicating the sequence alone — no growth and no loss. -/
theorem dedup_idempotent_on_self_append (s : List PaperRecord) :
    dedup (s ++ s) = dedup s := by
  rw [dedup, dedupAux_append,
    dedupAux_eq_nil_of_all_seen (fun p hp => key_mem_seenAfter hp),
    List.append_nil]
  rfl

/-- C3: A session's mode is one member of the closed set
{summarize, explain, code-check, custom-prompt}: construction accepts
exactly those mode names, rejects every other string, and every accepted
mode value is one of the four variants. -/
theorem mode_is_closed_set (str : String) :
    ((parseMode str).isSome ↔ str ∈ modeStrings) ∧
      (str ∉ modeStrings → parseMode str = none) ∧
      (∀ m, parseMode str = some m →
        m = Mode.summarize ∨ m = Mode.explain ∨ m = Mode.codeCheck ∨
          m = Mode.customPrompt) := by
  refine ⟨?_, ?_, ?_⟩
  · unfold parseMode modeStrings
    split_ifs with h1 h2 h3 h4 <;> simp_all
  · intro hnot
    unfold modeStrings at hnot
    simp only [List.mem_cons, List.not_mem_nil, or_false, not_or] at hnot
    unfold parseMode
    simp [hnot.1, hnot.2.1, hnot.2.2.1, hnot.2.2.2]
  · intro m _
    cases m
    · exact Or.inl rfl
    · exact Or.inr (Or.inl rfl)
    · exact Or.inr (Or.inr (Or.inl rfl))
    · exact Or.inr (Or.inr (Or.inr rfl))

/-- C3 witness at concrete inputs: an arbitrary unknown mode name is
rejected, and "summarize" is accepted. -/
theorem mode_is_closed_set_witness :
    parseMode "translate" = none ∧ ((parseMode "summarize").isSome ↔ "summarize" ∈ modeStrings) :=
  ⟨(mode_is_closed_set "translate").2.1 (by decide), (mode_is_closed_set "summarize").1⟩

theorem combinedScore_mono_citations {c1 c2 : Nat} (a : Nat) (h : c1 ≤ c2) :
    combinedScore c1 a ≤ combinedScore c2 a := by
  unfold combinedScore
  gcongr

theorem combinedScore_anti_age (c : Nat) {a1 a2 : Nat} (h : a1 ≤ a2) :
    combinedScore c a2 ≤ combinedScore c a1 := by
  unfold combinedScore
  gcongr

/-- C6: The combined score is monotonically non-decreasing in
citation_count and non-increasing in age; consequently, of two records that
differ only in citation_count, the one with the higher citation_count never
ranks below the other. -/
theorem combined_score_monotone :
    (∀ (c1 c2 a : Nat), c1 ≤ c2 → combinedScore c1 a ≤ combinedScore c2 a) ∧
      (∀ (c a1 a2 : Nat), a1 ≤ a2 → combinedScore c a2 ≤ combinedScore c a1) ∧
      (∀ (r1 r2 : PaperRecord) (currentYear : Int),
        r1.title = r2.title → r1.authors = r2.authors → r1.year = r2.year →
        r1.source_url = r2.source_url → r2.citation_count ≤ r1.citation_count →
        ranksNotBelow r1 r2 currentYear) := by
  refine ⟨fun c1 c2 a h => combinedScore_mono_citations a h,
    fun c a1 a2 h => combinedScore_anti_age c h, ?_⟩
  intro r1 r2 currentYear htitle _ hyear _ hcit
  have hscore : scoreOf r2 currentYear ≤ scoreOf r1 currentYear := by
    unfold scoreOf paperAge
    rw [hyear]
    exact combinedScore_mono_citations _ hcit
  rcases lt_or_eq_of_le hscore with hlt | heq
  · exact Or.inl hlt
  · exact Or.inr ⟨heq.symm, le_of_eq htitle⟩

/-- C6 witness at concrete records differing only in citation_count (8
versus 3 citations): the higher-citation record is not ranked below. -/
theorem combined_score_monotone_witness :
    ranksNotBelow ⟨"Same Title", ["a"], 2020, 8, "u"⟩
      ⟨"Same Title", ["a"], 2020, 3, "u"⟩ 2024 :=
  combined_score_monotone.2.2 ⟨"Same Title", ["a"], 2020, 8, "u"⟩
    ⟨"Same Title", ["a"], 2020, 3, "u"⟩ 2024 rfl rfl rfl rfl (by decide)

/-- C7: The ThresholdFilter returns at most `top_n` records when that bound
is supplied; every returned record's score meets the supplied threshold
(so an empty result is an ordinary value); and when neither bound is
supplied the full ranked sequence passes through unchanged. -/
theorem threshold_filter_contract :
    (∀ (k : Nat) (thr : Option ℚ) (ranked : List (PaperRecord × ℚ)),
      (thresholdFilter (some k) thr ranked).length ≤ k) ∧
      (∀ (topN : Option Nat) (t : ℚ) (ranked : List (PaperRecord × ℚ)),
        ∀ e ∈ thresholdFilter topN (some t) ranked, t ≤ e.2) ∧
      (∀ ranked : List (PaperRecord × ℚ), thresholdFilter none none ranked = ranked) := by
  refine ⟨?_, ?_, fun ranked => rfl⟩
  · intro k thr ranked
    unfold thresholdFilter
    cases thr with
    | none => simp [List.length_take]
    | some t => simp [List.length_take]
  · intro topN t ranked e he
    unfold thresholdFilter at he
    cases topN with
    | none =>
      have := List.mem_filter.mp he
      simpa using this.2
    | some k =>
      have := List.mem_filter.mp (List.mem_of_mem_take he)
      simpa using this.2

/-- C7 witness, the spec's end-to-end example 2: threshold 1/2 over scores
4/5 and 3/10 keeps exactly the 4/5 paper, and the kept score meets the
threshold by the filter contract. -/
theorem threshold_filter_contract_witness :
    thresholdFilter none (some (mkRat 1 2))
        [(⟨"High", ["a"], 2024, 8, "u"⟩, mkRat 4 5), (⟨"Low", ["b"], 2024, 3, "v"⟩, mkRat 3 10)]
      = [(⟨"High", ["a"], 2024, 8, "u"⟩, mkRat 4 5)] ∧
      mkRat 1 2 ≤ mkRat 4 5 :=
  ⟨by decide,
    threshold_filter_contract.2.1 none (mkRat 1 2)
      [(⟨"High", ["a"], 2024, 8, "u"⟩, mkRat 4 5), (⟨"Low", ["b"], 2024, 3, "v"⟩, mkRat 3 10)]
      (⟨"High", ["a"], 2024, 8, "u"⟩, mkRat 4 5) (by decide)⟩

/-- C8 counterexample: a folder holding only a non-PDF file makes
`get_all_pdf_files` signal the zero-match case by raising (an error value),
not by returning an empty result, so the claim does not hold of every
filtering or search operation as stated. -/
theorem zero_matches_raises_counterexample :
    get_all_pdf_files ["notes.txt"]
        = Except.error "No PDF files found in the specified folder." ∧
      get_all_pdf_files ["notes.txt"] ≠ Except.ok [] := by
  refine ⟨rfl, ?_⟩
  intro h
  rw [show get_all_pdf_files ["notes.txt"]
      = Except.error "No PDF files found in the specified folder." from rfl] at h
  simp at h

/-- C8 amended: zero search results across all keywords is reported to the
caller as the empty corpus, an ordinary value; zero PDF files matching the
folder filter makes `get_all_pdf_files` raise a ValueError-style error,
which the batch caller catches and handles by printing and returning, so
the caller's process is still not aborted. -/
theorem zero_matches_handling :
    (∀ (adapter : String → List PaperRecord) (keywords : List String),
      (∀ k ∈ keywords, adapter k = []) → searchRun adapter keywords = []) ∧
      (∀ files : List String, files.filter isPdfName = [] →
        get_all_pdf_files files
          = Except.error "No PDF files found in the specified folder.") ∧
      (∀ files : List String, files.filter isPdfName = [] →
        summarize_all_papers_main files
          = BatchOutcome.handledNoPdfs "No PDF files found in the specified folder.") := by
  have herr : ∀ files : List String, files.filter isPdfName = [] →
      get_all_pdf_files files
        = Except.error "No PDF files found in the specified folder." := by
    intro files hf
    unfold get_all_pdf_files
    rw [hf]
    rfl
  refine ⟨?_, herr, ?_⟩
  · intro adapter keywords hk
    have : keywords.foldr (fun k acc => adapter k ++ acc) [] = [] := by
      induction keywords with
      | nil => rfl
      | cons k ks ih =>
        rw [List.foldr_cons, hk k (by simp), List.nil_append]
        exact ih fun q hq => hk q (List.mem_cons_of_mem _ hq)
    rw [searchRun, this]
    rfl
  · intro files hf
    rw [summarize_all_papers_main, herr files hf]

/-- C8 amended witness at concrete inputs: an adapter with no results for
two keywords yields the empty corpus, and a folder with one text file makes
the batch caller take the handled no-PDF branch. -/
theorem zero_matches_handling_witness :
    searchRun (fun _ => []) ["A", "B"] = [] ∧
      summarize_all_papers_main ["notes.txt"]
        = BatchOutcome.handledNoPdfs "No PDF files found in the specified folder." :=
  ⟨zero_matches_handling.1 (fun _ => []) ["A", "B"] (fun _ _ => rfl),
    zero_matches_handling.2.2 ["notes.txt"] (by decide)⟩

/-- C9: The code-availability check returns exactly one of the three
verdicts: it answers no-link-found precisely when no repository-shaped URL
is extracted from the response, answers link-found-unreachable when the
extracted URL fails the liveness check, and link-found-reachable when it
passes — so an unreachable claimed link is never coerced into
no-link-found. -/
theorem code_availability_three_verdicts (reach : String → Bool) (response : String) :
    (test_github_link reach response = Verdict.noLinkFound ↔ extract_url response = none) ∧
      (∀ u, extract_url response = some u → reach u = false →
        test_github_link reach response = Verdict.linkFoundUnreachable) ∧
      (∀ u, extract_url response = some u → reach u = true →
        test_github_link reach response = Verdict.linkFoundReachable) := by
  refine ⟨?_, ?_, ?_⟩
  · unfold test_github_link
    cases hx : extract_url response with
    | none => simp
    | some u =>
      simp only [hx]
      by_cases hr : reach u = true
      · simp [hr]
      · simp only [Bool.not_eq_true] at hr
        simp [hr]
  · intro u hu hr
    unfold test_github_link
    rw [hu]
    simp [hr]
  · intro u hu hr
    unfold test_github_link
    rw [hu]
    simp [hr]

/-- C9 witness, the spec's end-to-end example 3 shape: a response with no
URL yields no-link-found, and a response whose GitHub URL the liveness
check rejects yields link-found-unreachable, not no-link-found. -/
theorem code_availability_three_verdicts_witness :
    test_github_link (fun _ => false) "The paper states no code." = Verdict.noLinkFound ∧
      test_github_link (fun _ => false) "Code at https://github.com/a/b here"
        = Verdict.linkFoundUnreachable ∧
      Verdict.linkFoundUnreachable ≠ Verdict.noLinkFound :=
  ⟨(code_availability_three_verdicts (fun _ => false) "The paper states no code.").1.mpr
      (by decide),
    (code_availability_three_verdicts (fun _ => false) "Code at https://github.com/a/b here").2.1
      "https://github.com/a/b" (by decide) rfl,
    by decide⟩

/-- C10: Running the survey over each PDF file persists each generated
summary outside the session object, keyed to the paper: after the batch the
sessions are discarded, yet `print_summaries` over the persisted store
lists every processed paper with its summary. -/
theorem summaries_persist_outside_sessions (extracted : Sections)
    (respond : String → LLMResponse) (store : SummaryStore) (files : List String) :
    print_summaries (processAll extracted respond store files)
      = store.entries ++ files.map (fun f => (f, (respond f).text)) := by
  induction files generalizing store with
  | nil => simp [processAll, print_summaries]
  | cons f fs ih =>
    rw [processAll, ih]
    simp [storeSummary, AutoSurvey.run]

end AutoResearch
